import Mathlib

/-!
Formal model of the in-memory Sliding Window Log rate limiter
(`RateLimiter` class in `rateLimiter.ts`) and of the `/rate-limit/allow`
route handler (`rateLimitRoutes.ts`).

Timestamps (`Date.now() / 1000`) enter the algorithm only through the
linear order and subtraction, so they are modelled as integers in an
arbitrary time unit (`Date.now()` itself is an integral count of
milliseconds).  The mutable `Map<string, number[]>` of per-user logs is
modelled as a function `String → Option (List ℤ)`; each mutating method
returns the updated limiter state.  The ambient clock read
`Date.now() / 1000` is made an explicit `currentTime` argument.
-/

set_option maxHeartbeats 1000000
set_option linter.unusedVariables false

/-- The `RateLimitStats` interface of `rateLimiter.ts`. -/
structure RateLimitStats where
  currentCount : ℕ
  remaining : ℤ
  limit : ℕ
  windowSizeSeconds : ℤ
  deriving Repr, DecidableEq

/-- State of the `RateLimiter` class: the two constructor fields plus the
per-user timestamp logs map (`none` = the key is absent from the `Map`). -/
structure RateLimiter where
  maxRequestsPerHour : ℕ
  windowSizeSeconds : ℤ
  userLogs : String → Option (List ℤ)

/-- The constructor: both limits stored, the log map starts empty. -/
def RateLimiter.init (maxRequestsPerHour : ℕ) (windowSizeSeconds : ℤ) :
    RateLimiter :=
  { maxRequestsPerHour := maxRequestsPerHour
    windowSizeSeconds := windowSizeSeconds
    userLogs := fun _ => none }

/-- The pruning loop of `allow`:
`while (userLog.length > 0 && userLog[0] <= windowStart) userLog.shift()`.
It removes the maximal stale prefix of the log. -/
def pruneFront (windowStart : ℤ) : List ℤ → List ℤ
  | [] => []
  | t :: ts => if t ≤ windowStart then pruneFront windowStart ts else t :: ts

/-- Result of one `allow` call: the returned boolean plus the limiter state
after the call's in-place mutations. -/
structure AllowResult where
  allowed : Bool
  limiter : RateLimiter

/-- The `Map.set(userId, log)` update of the user-logs map (with `none` for `Map.delete`). -/
def RateLimiter.setLog (rl : RateLimiter) (userId : String)
    (log : Option (List ℤ)) : RateLimiter :=
  { rl with userLogs := fun k => if k = userId then log else rl.userLogs k }

/-- Method `allow`: look up (or create) the user's log, prune stale
entries from the front in place, then append `currentTime` and admit iff
the pruned length is below the limit.  Note that the pruned log is stored
back even on rejection, and a fresh empty log is created for a never-seen
user, exactly as the in-place JS mutations do. -/
def RateLimiter.allow (rl : RateLimiter) (userId : String)
    (currentTime : ℤ) : AllowResult :=
  let windowStart := currentTime - rl.windowSizeSeconds
  let userLog := (rl.userLogs userId).getD []
  let pruned := pruneFront windowStart userLog
  if pruned.length < rl.maxRequestsPerHour then
    { allowed := true
      limiter := rl.setLog userId (some (pruned ++ [currentTime])) }
  else
    { allowed := false
      limiter := rl.setLog userId (some pruned) }

/-- Method `getRequestCount`: pure read; filters the stored log to the
entries strictly inside the window and returns the count.  The stored log
itself is not modified (`filter` builds a new array). -/
def RateLimiter.getRequestCount (rl : RateLimiter) (userId : String)
    (currentTime : ℤ) : ℕ :=
  let windowStart := currentTime - rl.windowSizeSeconds
  let userLog := (rl.userLogs userId).getD []
  (userLog.filter (fun timestamp => windowStart < timestamp)).length

/-- Method `getRemainingRequests`:
`Math.max(0, maxRequestsPerHour - filteredLog.length)`, computed over the
same filtered view as `getRequestCount`.  Returned as an integer so that
nonnegativity is a property, not a typing artifact. -/
def RateLimiter.getRemainingRequests (rl : RateLimiter) (userId : String)
    (currentTime : ℤ) : ℤ :=
  let windowStart := currentTime - rl.windowSizeSeconds
  let userLog := (rl.userLogs userId).getD []
  let filteredLog := userLog.filter (fun timestamp => windowStart < timestamp)
  max 0 ((rl.maxRequestsPerHour : ℤ) - filteredLog.length)

/-- Method `getStats`: packages the two reads plus the static fields. -/
def RateLimiter.getStats (rl : RateLimiter) (userId : String)
    (currentTime : ℤ) : RateLimitStats :=
  { currentCount := rl.getRequestCount userId currentTime
    remaining := rl.getRemainingRequests userId currentTime
    limit := rl.maxRequestsPerHour
    windowSizeSeconds := rl.windowSizeSeconds }

/-- Method `resetUser`: `this.userLogs.delete(userId)`. -/
def RateLimiter.resetUser (rl : RateLimiter) (userId : String) : RateLimiter :=
  rl.setLog userId none

/-- Method `resetAll`: `this.userLogs.clear()`. -/
def RateLimiter.resetAll (rl : RateLimiter) : RateLimiter :=
  { rl with userLogs := fun _ => none }

/-- Response of the `POST /rate-limit/allow` route: HTTP status plus the
JSON fields that depend on the limiter (`none` for the 400 error body,
which carries no rate-limit data). -/
structure AllowResponse where
  status : ℕ
  allowed : Option Bool
  remaining : Option ℤ
  currentCount : Option ℕ
  limit : Option ℕ
  deriving Repr, DecidableEq

/-- The `POST /rate-limit/allow` handler of `rateLimitRoutes.ts`: a missing
or empty (falsy) `userId` is rejected with status 400 before the limiter is
touched; otherwise `allow` runs, `getStats` reads the updated limiter, and
the status is 200 on admit, 429 on rate-limit rejection. -/
def handleAllow (rl : RateLimiter) (userId : Option String)
    (currentTime : ℤ) : AllowResponse × RateLimiter :=
  match userId with
  | none =>
    ({ status := 400, allowed := none, remaining := none,
       currentCount := none, limit := none }, rl)
  | some u =>
    if u = "" then
      ({ status := 400, allowed := none, remaining := none,
         currentCount := none, limit := none }, rl)
    else
      let result := rl.allow u currentTime
      let stats := result.limiter.getStats u currentTime
      if result.allowed then
        ({ status := 200, allowed := some true, remaining := some stats.remaining,
           currentCount := some stats.currentCount, limit := some stats.limit },
         result.limiter)
      else
        ({ status := 429, allowed := some false, remaining := some stats.remaining,
           currentCount := some stats.currentCount, limit := some stats.limit },
         result.limiter)

/-- Run a burst of `allow` calls for one user at the given sequence of
clock readings; collect the returned booleans and the final state. -/
def runBurst (rl : RateLimiter) (userId : String) :
    List ℤ → List Bool × RateLimiter
  | [] => ([], rl)
  | t :: ts =>
    let r := rl.allow userId t
    let rest := runBurst r.limiter userId ts
    (r.allowed :: rest.1, rest.2)

/-- The in-window count that an `allow` call observes after its prune step
(the `userLog.length` compared against the limit on line 77 of
`rateLimiter.ts`). -/
def RateLimiter.allowObservedCount (rl : RateLimiter) (userId : String)
    (currentTime : ℤ) : ℕ :=
  (pruneFront (currentTime - rl.windowSizeSeconds)
    ((rl.userLogs userId).getD [])).length

/-- One public operation of the `RateLimiter` class, applied to one key.
The clock reading of the operation is carried as data. -/
inductive LimiterOp where
  | allowStep (now : ℤ)
  | countStep (now : ℤ)
  | remainingStep (now : ℤ)
  | statsStep (now : ℤ)
  | resetStep
  deriving Repr, DecidableEq

/-- Whether the operation is one of the read-only projections. -/
def LimiterOp.isRead : LimiterOp → Bool
  | .countStep _ => true
  | .remainingStep _ => true
  | .statsStep _ => true
  | _ => false

/-- State transformer of one operation for one key: `allow` and `resetUser`
update the state; the read projections compute their value and leave the
state as is (their `filter` builds a fresh array, the stored log is not
touched). -/
def applyOp (rl : RateLimiter) (userId : String) : LimiterOp → RateLimiter
  | .allowStep now => (rl.allow userId now).limiter
  | .countStep now =>
    let _ := rl.getRequestCount userId now
    rl
  | .remainingStep now =>
    let _ := rl.getRemainingRequests userId now
    rl
  | .statsStep now =>
    let _ := rl.getStats userId now
    rl
  | .resetStep => rl.resetUser userId

/-- Apply a sequence of operations, all for the same key. -/
def runOps (rl : RateLimiter) (userId : String) (ops : List LimiterOp) :
    RateLimiter :=
  ops.foldl (fun s op => applyOp s userId op) rl

/-- States reachable from a freshly constructed limiter with limit `L` and
window `W` by any sequence of `allow`, read, `resetUser` and `resetAll`
calls, for any keys and clock readings. -/
inductive Reachable (L : ℕ) (W : ℤ) : RateLimiter → Prop
  | base : Reachable L W (RateLimiter.init L W)
  | step (rl : RateLimiter) (k : String) (op : LimiterOp) :
      Reachable L W rl → Reachable L W (applyOp rl k op)
  | clearAll (rl : RateLimiter) : Reachable L W rl → Reachable L W rl.resetAll

/-- The limiter with the key's stored log replaced by its live part (the
entries strictly inside the window at `now`). -/
def liveView (rl : RateLimiter) (key : String) (now : ℤ) : RateLimiter :=
  rl.setLog key (some (((rl.userLogs key).getD []).filter
    (fun t => now - rl.windowSizeSeconds < t)))


/-! ### Basic lemmas about the store operations -/

@[simp] theorem setLog_maxRequestsPerHour (rl : RateLimiter) (u : String)
    (log : Option (List ℤ)) :
    (rl.setLog u log).maxRequestsPerHour = rl.maxRequestsPerHour := rfl

@[simp] theorem setLog_windowSizeSeconds (rl : RateLimiter) (u : String)
    (log : Option (List ℤ)) :
    (rl.setLog u log).windowSizeSeconds = rl.windowSizeSeconds := rfl

@[simp] theorem setLog_userLogs_self (rl : RateLimiter) (u : String)
    (log : Option (List ℤ)) :
    (rl.setLog u log).userLogs u = log := by
  simp [RateLimiter.setLog]

theorem setLog_userLogs_other (rl : RateLimiter) (u k : String)
    (log : Option (List ℤ)) (h : k ≠ u) :
    (rl.setLog u log).userLogs k = rl.userLogs k := by
  simp [RateLimiter.setLog, h]

theorem pruneFront_sublist (ws : ℤ) (l : List ℤ) :
    (pruneFront ws l).Sublist l := by
  induction l with
  | nil => simp [pruneFront]
  | cons t ts ih =>
    by_cases h : t ≤ ws
    · simpa [pruneFront, h] using ih.cons t
    · simp [pruneFront, h]

theorem pruneFront_length_le (ws : ℤ) (l : List ℤ) :
    (pruneFront ws l).length ≤ l.length :=
  (pruneFront_sublist ws l).length_le

theorem pruneFront_eq_self (ws : ℤ) (l : List ℤ)
    (h : ∀ t ∈ l, ws < t) : pruneFront ws l = l := by
  cases l with
  | nil => rfl
  | cons t ts =>
    have ht : ws < t := h t (by simp)
    simp [pruneFront, not_le.mpr ht]

theorem pruneFront_eq_nil (ws : ℤ) (l : List ℤ)
    (h : ∀ t ∈ l, t ≤ ws) : pruneFront ws l = [] := by
  induction l with
  | nil => rfl
  | cons t ts ih =>
    have ht : t ≤ ws := h t (by simp)
    simpa [pruneFront, ht] using ih (fun x hx => h x (by simp [hx]))

/-- On a non-decreasing log, the front-pruning loop removes exactly the
stale entries: what survives is strictly inside the window. -/
theorem mem_pruneFront_sorted (ws : ℤ) (l : List ℤ)
    (hsorted : l.Pairwise (· ≤ ·)) :
    ∀ t ∈ pruneFront ws l, ws < t := by
  induction l with
  | nil => simp [pruneFront]
  | cons t ts ih =>
    rcases List.pairwise_cons.mp hsorted with ⟨hle, hts⟩
    by_cases h : t ≤ ws
    · simpa [pruneFront, h] using ih hts
    · intro x hx
      rcases List.mem_cons.mp (by simpa [pruneFront, h] using hx) with hx | hx
      · subst hx
        exact not_le.mp h
      · exact lt_of_lt_of_le (not_le.mp h) (hle x hx)

/-- On a non-decreasing log, the `filter`-based read path and the
front-pruning loop of `allow` select exactly the same entries. -/
theorem filter_eq_pruneFront_of_sorted (ws : ℤ) (l : List ℤ)
    (hsorted : l.Pairwise (· ≤ ·)) :
    l.filter (fun t => ws < t) = pruneFront ws l := by
  induction l with
  | nil => rfl
  | cons t ts ih =>
    rcases List.pairwise_cons.mp hsorted with ⟨hle, hts⟩
    by_cases h : t ≤ ws
    · simpa [pruneFront, h, not_lt.mpr h] using ih hts
    · have ht : ws < t := not_le.mp h
      have hall : ts.filter (fun x => decide (ws < x)) = ts :=
        List.filter_eq_self.mpr
          (fun x hx => decide_eq_true (lt_of_lt_of_le ht (hle x hx)))
      simp [pruneFront, h, List.filter_cons, ht, hall]

@[simp] theorem allow_maxRequestsPerHour (rl : RateLimiter) (u : String)
    (now : ℤ) :
    (rl.allow u now).limiter.maxRequestsPerHour = rl.maxRequestsPerHour := by
  simp only [RateLimiter.allow]
  split <;> rfl

@[simp] theorem allow_windowSizeSeconds (rl : RateLimiter) (u : String)
    (now : ℤ) :
    (rl.allow u now).limiter.windowSizeSeconds = rl.windowSizeSeconds := by
  simp only [RateLimiter.allow]
  split <;> rfl

theorem allow_userLogs_other (rl : RateLimiter) (u k : String)
    (now : ℤ) (h : k ≠ u) :
    (rl.allow u now).limiter.userLogs k = rl.userLogs k := by
  simp only [RateLimiter.allow]
  split <;> exact setLog_userLogs_other rl u k _ h

/-- The boolean returned by `allow` is exactly the comparison of the
post-prune count against the limit. -/
theorem allow_allowed_eq (rl : RateLimiter) (u : String) (now : ℤ) :
    (rl.allow u now).allowed =
      decide (rl.allowObservedCount u now < rl.maxRequestsPerHour) := by
  simp only [RateLimiter.allow, RateLimiter.allowObservedCount]
  split <;> rename_i h <;> simp [h]

/-- The log stored back by `allow`: the pruned log, with `currentTime`
appended iff the call was admitted. -/
theorem allow_userLogs_self (rl : RateLimiter) (u : String) (now : ℤ) :
    (rl.allow u now).limiter.userLogs u =
      some (if rl.allowObservedCount u now < rl.maxRequestsPerHour
        then pruneFront (now - rl.windowSizeSeconds) ((rl.userLogs u).getD []) ++ [now]
        else pruneFront (now - rl.windowSizeSeconds) ((rl.userLogs u).getD [])) := by
  simp only [RateLimiter.allow, RateLimiter.allowObservedCount]
  split <;> rename_i h <;> simp [h]

/-! ### The burst induction -/

theorem runBurst_length (rl : RateLimiter) (u : String)
    (times : List ℤ) :
    (runBurst rl u times).1.length = times.length := by
  induction times generalizing rl with
  | nil => rfl
  | cons t ts ih => simp [runBurst, ih]

@[simp] theorem runBurst_maxRequestsPerHour (rl : RateLimiter) (u : String)
    (times : List ℤ) :
    (runBurst rl u times).2.maxRequestsPerHour = rl.maxRequestsPerHour := by
  induction times generalizing rl with
  | nil => rfl
  | cons t ts ih => simp [runBurst, ih]

@[simp] theorem runBurst_windowSizeSeconds (rl : RateLimiter) (u : String)
    (times : List ℤ) :
    (runBurst rl u times).2.windowSizeSeconds = rl.windowSizeSeconds := by
  induction times generalizing rl with
  | nil => rfl
  | cons t ts ih => simp [runBurst, ih]

/-- Unfold a `map` over `range (n + 1)` into its head and shifted tail. -/
theorem map_range_succ (n : ℕ) (f : ℕ → Bool) :
    (List.range (n + 1)).map f = f 0 :: (List.range n).map (fun i => f (i + 1)) := by
  rw [List.range_succ_eq_map]
  simp [Function.comp]

/-- Behaviour of a burst of `allow` calls for one key, with non-decreasing
clock readings that all fall within one window of each other, starting from
a stored log whose entries are live at every reading of the burst: the
`i`-th call admits exactly while the total count stays below the limit, and
the final log is the initial one extended by the admitted readings. -/
theorem runBurst_spec (times : List ℤ) (L : ℕ) (W : ℤ)
    (rl : RateLimiter) (u : String) (log : List ℤ)
    (hL : rl.maxRequestsPerHour = L) (hW : rl.windowSizeSeconds = W)
    (hlog : (rl.userLogs u).getD [] = log)
    (hlive : ∀ e ∈ log, ∀ t ∈ times, t - W < e)
    (htimes : times.Pairwise (fun a b => a ≤ b ∧ b - a < W)) :
    (runBurst rl u times).1 =
      (List.range times.length).map (fun i => decide (log.length + i < L)) ∧
    ((runBurst rl u times).2.userLogs u).getD [] =
      log ++ times.take (L - log.length) := by
  induction times generalizing rl log with
  | nil =>
    refine ⟨rfl, ?_⟩
    simpa [runBurst] using hlog
  | cons t ts ih =>
    rcases List.pairwise_cons.mp htimes with ⟨hhead, htail⟩
    have hprune :
        pruneFront (t - rl.windowSizeSeconds) ((rl.userLogs u).getD []) = log := by
      rw [hlog, hW]
      exact pruneFront_eq_self _ _ (fun e he => hlive e he t (by simp))
    have hobs : rl.allowObservedCount u t = log.length := by
      rw [RateLimiter.allowObservedCount, hprune]
    set rl' := (rl.allow u t).limiter with hrl'
    have hL' : rl'.maxRequestsPerHour = L := by
      rw [hrl', allow_maxRequestsPerHour, hL]
    have hW' : rl'.windowSizeSeconds = W := by
      rw [hrl', allow_windowSizeSeconds, hW]
    by_cases hlt : log.length < L
    · -- the call is admitted; the log grows by `t`
      have hallowed : (rl.allow u t).allowed = true := by
        rw [allow_allowed_eq, hobs, hL]
        exact decide_eq_true hlt
      have hlog' : (rl'.userLogs u).getD [] = log ++ [t] := by
        rw [hrl', allow_userLogs_self, hobs, hL, hprune, if_pos hlt]
        rfl
      have hlive' : ∀ e ∈ log ++ [t], ∀ t' ∈ ts, t' - W < e := by
        intro e he t' ht'
        rcases List.mem_append.mp he with he | he
        · exact hlive e he t' (by simp [ht'])
        · have he' : e = t := by simpa using he
          have h2 := (hhead t' ht').2
          omega
      obtain ⟨ihres, ihstate⟩ := ih rl' (log ++ [t]) hL' hW' hlog' hlive' htail
      constructor
      · rw [List.length_cons, map_range_succ]
        simp only [runBurst, hallowed, ihres]
        congr 1
        · simpa using (decide_eq_true hlt).symm
        · refine List.map_congr_left (fun i _ => decide_eq_decide.mpr ?_)
          simp only [List.length_append, List.length_cons, List.length_nil]
          omega
      · have htake : (t :: ts).take (L - log.length) =
            t :: ts.take (L - (log.length + 1)) := by
          have h1 : L - log.length = (L - (log.length + 1)) + 1 := by omega
          rw [h1, List.take_succ_cons]
        simp only [runBurst, ihstate, htake]
        simp
    · -- the call is rejected; the log is unchanged
      have hallowed : (rl.allow u t).allowed = false := by
        rw [allow_allowed_eq, hobs, hL]
        exact decide_eq_false hlt
      have hlog' : (rl'.userLogs u).getD [] = log := by
        rw [hrl', allow_userLogs_self, hobs, hL, hprune, if_neg hlt]
        rfl
      have hlive' : ∀ e ∈ log, ∀ t' ∈ ts, t' - W < e :=
        fun e he t' ht' => hlive e he t' (by simp [ht'])
      obtain ⟨ihres, ihstate⟩ := ih rl' log hL' hW' hlog' hlive' htail
      constructor
      · rw [List.length_cons, map_range_succ]
        simp only [runBurst, hallowed, ihres]
        congr 1
        · simpa using (decide_eq_false hlt).symm
        · refine List.map_congr_left (fun i _ => decide_eq_decide.mpr ?_)
          omega
      · have h0 : L - log.length = 0 := by omega
        simp only [runBurst, ihstate, h0, List.take_zero, List.append_nil]

/-! ### Replication helper -/

theorem pairwise_replicate_self {α : Type} (r : α → α → Prop) (a : α) (n : ℕ)
    (h : r a a) : (List.replicate n a).Pairwise r := by
  induction n with
  | zero => simp
  | succ n ih =>
    rw [List.replicate_succ]
    refine List.pairwise_cons.mpr ⟨fun b hb => ?_, ih⟩
    rw [List.eq_of_mem_replicate hb]
    exact h

/-! ### C1: capacity invariant -/

/-- C1: for a key governed by limit `L` and window `W`, a burst of `N ≥ L`
`allow` calls for a fresh key, with non-decreasing timestamps all falling
within one window of each other, admits exactly the first `L` calls and
rejects every later call of the burst. -/
theorem capacity_invariant (L : ℕ) (W : ℤ) (rl : RateLimiter) (key : String)
    (times : List ℤ)
    (hL : rl.maxRequestsPerHour = L) (hW : rl.windowSizeSeconds = W)
    (hfresh : (rl.userLogs key).getD [] = [])
    (hburst : times.Pairwise (fun a b => a ≤ b ∧ b - a < W))
    (hN : L ≤ times.length) :
    (runBurst rl key times).1.length = times.length ∧
    ∀ i, i < times.length →
      (runBurst rl key times).1.getD i false = decide (i < L) := by
  obtain ⟨hres, -⟩ :=
    runBurst_spec times L W rl key [] hL hW hfresh (by simp) hburst
  refine ⟨runBurst_length rl key times, fun i hi => ?_⟩
  rw [hres, List.getD_eq_getElem?_getD, List.getElem?_map,
    List.getElem?_range hi]
  simp

/-- Witness for `capacity_invariant`: limit 2, window 10, burst [0, 1, 2, 3]. -/
theorem capacity_invariant_witness :
    (runBurst (RateLimiter.init 2 10) "user123" ([0, 1, 2, 3] : List ℤ)).1.length =
        ([0, 1, 2, 3] : List ℤ).length ∧
    ∀ i, i < ([0, 1, 2, 3] : List ℤ).length →
      (runBurst (RateLimiter.init 2 10) "user123" ([0, 1, 2, 3] : List ℤ)).1.getD i false =
        decide (i < 2) :=
  capacity_invariant 2 10 (RateLimiter.init 2 10) "user123" [0, 1, 2, 3] rfl rfl
    (by decide) (by decide) (by decide)

/-! ### C2: window sliding -/

/-- C2: from a fresh key, after `L` admitted calls all at time `T`, a call
at `T + W - ε` (any `0 < ε < W`) still rejects, while a call at
`T + W + ε'` (any `ε' > 0`) admits again because all `L` prior entries are
pruned as outside the window (the stored log afterwards holds only the new
timestamp). -/
theorem window_sliding (L : ℕ) (W T ε ε' : ℤ) (rl : RateLimiter) (key : String)
    (hL : rl.maxRequestsPerHour = L) (hW : rl.windowSizeSeconds = W)
    (hL1 : 1 ≤ L) (hfresh : (rl.userLogs key).getD [] = [])
    (hε0 : 0 < ε) (hεW : ε < W) (hε'0 : 0 < ε') :
    (runBurst rl key (List.replicate L T)).1 = List.replicate L true ∧
    ((runBurst rl key (List.replicate L T)).2.allow key (T + W - ε)).allowed = false ∧
    ((runBurst rl key (List.replicate L T)).2.allow key (T + W + ε')).allowed = true ∧
    (((runBurst rl key (List.replicate L T)).2.allow key (T + W + ε')).limiter.userLogs key)
      = some [T + W + ε'] := by
  have hpair : (List.replicate L T).Pairwise (fun a b => a ≤ b ∧ b - a < W) :=
    pairwise_replicate_self _ T L ⟨le_refl T, by omega⟩
  obtain ⟨hres, hstate⟩ :=
    runBurst_spec (List.replicate L T) L W rl key [] hL hW hfresh (by simp) hpair
  set s := (runBurst rl key (List.replicate L T)).2 with hs
  have hsL : s.maxRequestsPerHour = L := by
    rw [hs, runBurst_maxRequestsPerHour, hL]
  have hsW : s.windowSizeSeconds = W := by
    rw [hs, runBurst_windowSizeSeconds, hW]
  have hslog : (s.userLogs key).getD [] = List.replicate L T := by
    rw [hs] at hstate ⊢
    simpa [List.take_of_length_le, List.length_replicate] using hstate
  have hmem : ∀ x ∈ List.replicate L T, x = T := fun x hx =>
    List.eq_of_mem_replicate hx
  refine ⟨?_, ?_, ?_, ?_⟩
  · -- all L calls in the initial burst are admitted
    rw [hres]
    simp only [List.length_replicate, List.length_nil]
    have h1 : ∀ i ∈ List.range L, (decide (0 + i < L)) = true := fun i hi =>
      decide_eq_true (by have := List.mem_range.mp hi; omega)
    calc (List.range L).map (fun i => decide (0 + i < L))
        = (List.range L).map (fun _ => true) := List.map_congr_left h1
      _ = List.replicate L true := by
          rw [List.map_const']
          simp
  · -- at T + W - ε nothing is pruned and the call rejects
    have hobs : s.allowObservedCount key (T + W - ε) = L := by
      rw [RateLimiter.allowObservedCount, hsW, hslog,
        pruneFront_eq_self _ _ (fun x hx => by rw [hmem x hx]; omega)]
      simp
    rw [allow_allowed_eq, hobs, hsL]
    simp
  · -- at T + W + ε' everything is pruned and the call admits
    have hobs : s.allowObservedCount key (T + W + ε') = 0 := by
      rw [RateLimiter.allowObservedCount, hsW, hslog,
        pruneFront_eq_nil _ _ (fun x hx => by rw [hmem x hx]; omega)]
      rfl
    rw [allow_allowed_eq, hobs, hsL]
    exact decide_eq_true (by omega)
  · -- the stored log afterwards holds exactly the new timestamp
    have hobs : s.allowObservedCount key (T + W + ε') = 0 := by
      rw [RateLimiter.allowObservedCount, hsW, hslog,
        pruneFront_eq_nil _ _ (fun x hx => by rw [hmem x hx]; omega)]
      rfl
    rw [allow_userLogs_self, hobs, hsL, if_pos (by omega)]
    rw [RateLimiter.allowObservedCount] at hobs
    rw [hsW] at hobs ⊢
    have : pruneFront (T + W + ε' - W) ((s.userLogs key).getD []) = [] :=
      List.length_eq_zero.mp hobs
    rw [this]
    rfl

/-- Witness for `window_sliding`: L = 2, W = 10, T = 0, ε = 3, ε' = 1. -/
theorem window_sliding_witness :
    (runBurst (RateLimiter.init 2 10) "user123" (List.replicate 2 (0 : ℤ))).1 =
        List.replicate 2 true ∧
    ((runBurst (RateLimiter.init 2 10) "user123" (List.replicate 2 (0 : ℤ))).2.allow
        "user123" (0 + 10 - 3)).allowed = false ∧
    ((runBurst (RateLimiter.init 2 10) "user123" (List.replicate 2 (0 : ℤ))).2.allow
        "user123" (0 + 10 + 1)).allowed = true ∧
    (((runBurst (RateLimiter.init 2 10) "user123" (List.replicate 2 (0 : ℤ))).2.allow
        "user123" (0 + 10 + 1)).limiter.userLogs "user123") = some [0 + 10 + 1] :=
  window_sliding 2 10 0 3 1 (RateLimiter.init 2 10) "user123" rfl rfl
    (by decide) (by decide) (by decide) (by decide) (by decide)

/-! ### C5: invalid identity is a validation error -/

/-- C5: a call with a missing or empty identity is rejected with the 400
validation error before the store is touched: the limiter state is
returned unchanged (no log is created or mutated for any key), the body
carries no admit/reject decision, and the status differs from the 429
rate-limit rejection. -/
theorem invalid_identity_rejected (rl : RateLimiter) (userId : Option String)
    (now : ℤ) (hbad : userId = none ∨ userId = some "") :
    (handleAllow rl userId now).2 = rl ∧
    (∀ k, (handleAllow rl userId now).2.userLogs k = rl.userLogs k) ∧
    (handleAllow rl userId now).1.status = 400 ∧
    (handleAllow rl userId now).1.allowed = none ∧
    (handleAllow rl userId now).1.status ≠ 429 := by
  rcases hbad with h | h <;> subst h <;>
    exact ⟨rfl, fun k => rfl, rfl, rfl, show (400 : ℕ) ≠ 429 by decide⟩

/-- Witness for `invalid_identity_rejected`: the empty identity on a fresh
limiter with limit 100 and window 3600. -/
theorem invalid_identity_rejected_witness :
    (handleAllow (RateLimiter.init 100 3600) (some "") 0).2 =
        RateLimiter.init 100 3600 ∧
    (∀ k, (handleAllow (RateLimiter.init 100 3600) (some "") 0).2.userLogs k =
        (RateLimiter.init 100 3600).userLogs k) ∧
    (handleAllow (RateLimiter.init 100 3600) (some "") 0).1.status = 400 ∧
    (handleAllow (RateLimiter.init 100 3600) (some "") 0).1.allowed = none ∧
    (handleAllow (RateLimiter.init 100 3600) (some "") 0).1.status ≠ 429 :=
  invalid_identity_rejected (RateLimiter.init 100 3600) (some "") 0
    (Or.inr rfl)

/-! ### C8: reset correctness -/

/-- C8: after `resetUser key` the next `allow` for that key behaves exactly
as for a never-seen key: the key is absent from the map, the observed
in-window count is 0 (both on the `allow` path and on the read path), the
call's outcome and the resulting log coincide with those on a freshly
constructed limiter with the same limit and window, and the call admits
whenever the limit is at least 1. -/
theorem reset_correctness (rl : RateLimiter) (key : String) (now : ℤ) :
    (rl.resetUser key).userLogs key = none ∧
    (rl.resetUser key).allowObservedCount key now = 0 ∧
    (rl.resetUser key).getRequestCount key now = 0 ∧
    ((rl.resetUser key).allow key now).allowed =
      ((RateLimiter.init rl.maxRequestsPerHour rl.windowSizeSeconds).allow
        key now).allowed ∧
    (((rl.resetUser key).allow key now).limiter.userLogs key) =
      (((RateLimiter.init rl.maxRequestsPerHour rl.windowSizeSeconds).allow
        key now).limiter.userLogs key) ∧
    (1 ≤ rl.maxRequestsPerHour →
      ((rl.resetUser key).allow key now).allowed = true) := by
  have hnone : (rl.resetUser key).userLogs key = none :=
    setLog_userLogs_self rl key none
  have hobs : (rl.resetUser key).allowObservedCount key now = 0 := by
    rw [RateLimiter.allowObservedCount, hnone]
    rfl
  have hobs0 : (RateLimiter.init rl.maxRequestsPerHour
      rl.windowSizeSeconds).allowObservedCount key now = 0 := rfl
  have hall : ((rl.resetUser key).allow key now).allowed =
      decide (0 < rl.maxRequestsPerHour) := by
    rw [allow_allowed_eq, hobs]
    rfl
  refine ⟨hnone, hobs, ?_, ?_, ?_, ?_⟩
  · rw [RateLimiter.getRequestCount, hnone]
    rfl
  · rw [hall, allow_allowed_eq, hobs0]
    rfl
  · rw [allow_userLogs_self, allow_userLogs_self, hobs, hobs0, hnone]
    rfl
  · intro hL
    rw [hall]
    exact decide_eq_true (by omega)

/-- Witness for `reset_correctness`: limiter with limit 2, window 10 and a
full log for the key, reset and probed at time 5. -/
theorem reset_correctness_witness :
    let rl := (runBurst (RateLimiter.init 2 10) "user123" [0, 1]).2
    (rl.resetUser "user123").userLogs "user123" = none ∧
    (rl.resetUser "user123").allowObservedCount "user123" 5 = 0 ∧
    (rl.resetUser "user123").getRequestCount "user123" 5 = 0 ∧
    ((rl.resetUser "user123").allow "user123" 5).allowed =
      ((RateLimiter.init rl.maxRequestsPerHour rl.windowSizeSeconds).allow
        "user123" 5).allowed ∧
    (((rl.resetUser "user123").allow "user123" 5).limiter.userLogs "user123") =
      (((RateLimiter.init rl.maxRequestsPerHour rl.windowSizeSeconds).allow
        "user123" 5).limiter.userLogs "user123") ∧
    (1 ≤ rl.maxRequestsPerHour →
      ((rl.resetUser "user123").allow "user123" 5).allowed = true) :=
  reset_correctness (runBurst (RateLimiter.init 2 10) "user123" [0, 1]).2
    "user123" 5

/-! ### C3: pruning discipline of writes vs reads -/

/-- C3 counterexample: `getRequestCount` is an operation that reads the
key's log, yet after it runs (at time 20, window 10) the stored log still
contains the stale entry 0 (0 ≤ 20 − 10): the read-only operations do not
prune the stored log, contradicting the claim that every operation that
reads or writes a log prunes the stored log before using it. -/
theorem reads_do_not_prune_counterexample :
    ((applyOp (((RateLimiter.init 2 10).allow "u" 0).limiter) "u"
        (LimiterOp.countStep 20)).userLogs "u" = some [0]) ∧
    ((0 : ℤ) ≤ 20 - (applyOp (((RateLimiter.init 2 10).allow "u" 0).limiter) "u"
        (LimiterOp.countStep 20)).windowSizeSeconds) ∧
    ((((RateLimiter.init 2 10).allow "u" 0).limiter).getRequestCount "u" 20 = 0) := by
  refine ⟨by decide, by decide, by decide⟩

/-- C3 (amended): `allow` prunes the stored log before using it — on a
non-decreasing stored log with a positive window, no stale entry survives
an `allow` that touched its key — while the read operations
(`getRequestCount`, `getRemainingRequests`, `getStats`) leave the limiter
state unchanged (stale entries survive in the stored log), but compute
their values over only the live entries: replacing the stored log by its
live part changes no read result, so a caller never observes a stale
count. -/
theorem prune_on_write_reads_observe_live (rl : RateLimiter) (key : String)
    (now : ℤ) (hsorted : ((rl.userLogs key).getD []).Pairwise (· ≤ ·))
    (hW : 0 < rl.windowSizeSeconds) :
    (∀ t ∈ (((rl.allow key now).limiter.userLogs key).getD []),
        now - rl.windowSizeSeconds < t) ∧
    (∀ op : LimiterOp, op.isRead = true → applyOp rl key op = rl) ∧
    rl.getRequestCount key now = (liveView rl key now).getRequestCount key now ∧
    rl.getRemainingRequests key now =
      (liveView rl key now).getRemainingRequests key now ∧
    rl.getStats key now = (liveView rl key now).getStats key now := by
  have hlive : ∀ t ∈ pruneFront (now - rl.windowSizeSeconds)
      ((rl.userLogs key).getD []), now - rl.windowSizeSeconds < t :=
    mem_pruneFront_sorted _ _ hsorted
  have hfilter : (((rl.userLogs key).getD []).filter
        (fun t => now - rl.windowSizeSeconds < t)).filter
        (fun t => now - rl.windowSizeSeconds < t) =
      ((rl.userLogs key).getD []).filter
        (fun t => now - rl.windowSizeSeconds < t) :=
    List.filter_eq_self.mpr (fun a ha => (List.mem_filter.mp ha).2)
  refine ⟨?_, ?_, ?_, ?_, ?_⟩
  · intro t ht
    rw [allow_userLogs_self] at ht
    simp only [Option.getD_some] at ht
    by_cases hc : rl.allowObservedCount key now < rl.maxRequestsPerHour
    · rw [if_pos hc] at ht
      rcases List.mem_append.mp ht with h | h
      · exact hlive t h
      · have : t = now := by simpa using h
        omega
    · rw [if_neg hc] at ht
      exact hlive t ht
  · intro op hop
    cases op <;> simp [LimiterOp.isRead] at hop <;> rfl
  · simp only [RateLimiter.getRequestCount, liveView, setLog_userLogs_self,
      setLog_windowSizeSeconds, Option.getD_some, hfilter]
  · simp only [RateLimiter.getRemainingRequests, liveView, setLog_userLogs_self,
      setLog_windowSizeSeconds, setLog_maxRequestsPerHour, Option.getD_some,
      hfilter]
  · simp only [RateLimiter.getStats, RateLimiter.getRequestCount,
      RateLimiter.getRemainingRequests, liveView, setLog_userLogs_self,
      setLog_windowSizeSeconds, setLog_maxRequestsPerHour, Option.getD_some,
      hfilter]

/-- Witness for `prune_on_write_reads_observe_live`: the limiter holding
log [0, 1] for "u" (limit 2, window 10), probed at time 5. -/
theorem prune_on_write_reads_observe_live_witness :
    let rl := (runBurst (RateLimiter.init 2 10) "u" [0, 1]).2
    (∀ t ∈ (((rl.allow "u" 5).limiter.userLogs "u").getD []),
        5 - rl.windowSizeSeconds < t) ∧
    (∀ op : LimiterOp, op.isRead = true → applyOp rl "u" op = rl) ∧
    rl.getRequestCount "u" 5 = (liveView rl "u" 5).getRequestCount "u" 5 ∧
    rl.getRemainingRequests "u" 5 =
      (liveView rl "u" 5).getRemainingRequests "u" 5 ∧
    rl.getStats "u" 5 = (liveView rl "u" 5).getStats "u" 5 :=
  prune_on_write_reads_observe_live
    (runBurst (RateLimiter.init 2 10) "u" [0, 1]).2 "u" 5
    (by decide) (by decide)

/-! ### C4: read path versus allow path -/

/-- C4 counterexample: a reachable limiter state whose stored log [10, 2]
is out of order because the clock regressed between two `allow` calls
(limit 2, window 5).  At time 8 the filter-based `getRequestCount` returns
1, strictly below the limit, while the immediately subsequent `allow`
observes 2 after its front-prune step and rejects: the two paths disagree
on this reachable log, contradicting the claim that they agree on every
reachable log including unsorted ones. -/
theorem count_vs_allow_counterexample :
    ((((RateLimiter.init 2 5).allow "u" 10).limiter.allow "u" 2).limiter.userLogs "u"
        = some [10, 2]) ∧
    ((((RateLimiter.init 2 5).allow "u" 10).limiter.allow "u" 2).limiter.getRequestCount
        "u" 8 = 1) ∧
    ((((RateLimiter.init 2 5).allow "u" 10).limiter.allow "u" 2).limiter.allowObservedCount
        "u" 8 = 2) ∧
    (((((RateLimiter.init 2 5).allow "u" 10).limiter.allow "u" 2).limiter.allow
        "u" 8).allowed = false) ∧
    ((((RateLimiter.init 2 5).allow "u" 10).limiter.allow "u" 2).limiter.getRequestCount
        "u" 8
      < (((RateLimiter.init 2 5).allow "u" 10).limiter.allow "u" 2).limiter.maxRequestsPerHour) := by
  refine ⟨by decide, by decide, by decide, by decide, by decide⟩

/-- C4 (amended): on every stored log with non-decreasing timestamps (the
order maintained whenever the recording clock does not regress), the
filter-based read path (`getRequestCount`) and the front-prune-based write
path of `allow` observe the same in-window count, and `allow`'s decision
is exactly the comparison of that read count against the limit.  (On
clock-regression states with an out-of-order log the two paths can
disagree, as the counterexample shows.) -/
theorem count_consistency (rl : RateLimiter) (key : String) (now : ℤ)
    (hsorted : ((rl.userLogs key).getD []).Pairwise (· ≤ ·)) :
    rl.getRequestCount key now = rl.allowObservedCount key now ∧
    (rl.allow key now).allowed =
      decide (rl.getRequestCount key now < rl.maxRequestsPerHour) := by
  have h := filter_eq_pruneFront_of_sorted (now - rl.windowSizeSeconds) _ hsorted
  have h1 : rl.getRequestCount key now = rl.allowObservedCount key now := by
    simp only [RateLimiter.getRequestCount, RateLimiter.allowObservedCount]
    rw [h]
  exact ⟨h1, by rw [allow_allowed_eq, h1]⟩

/-- Witness for `count_consistency`: the limiter holding the sorted log
[0, 1] for "u" (limit 2, window 10), probed at time 5. -/
theorem count_consistency_witness :
    let rl := (runBurst (RateLimiter.init 2 10) "u" [0, 1]).2
    rl.getRequestCount "u" 5 = rl.allowObservedCount "u" 5 ∧
    (rl.allow "u" 5).allowed =
      decide (rl.getRequestCount "u" 5 < rl.maxRequestsPerHour) :=
  count_consistency (runBurst (RateLimiter.init 2 10) "u" [0, 1]).2 "u" 5
    (by decide)

/-! ### Operation-level helper lemmas -/

theorem applyOp_read (rl : RateLimiter) (k : String) (op : LimiterOp)
    (h : op.isRead = true) : applyOp rl k op = rl := by
  cases op <;> simp [LimiterOp.isRead] at h <;> rfl

theorem runOps_reads_eq (rl : RateLimiter) (k : String) (ops : List LimiterOp) :
    (∀ op ∈ ops, op.isRead = true) → runOps rl k ops = rl := by
  induction ops with
  | nil => intro _; rfl
  | cons op rest ih =>
    intro hreads
    have hop := applyOp_read rl k op (hreads op (by simp))
    show List.foldl _ (applyOp rl k op) rest = rl
    rw [hop]
    exact ih (fun o ho => hreads o (by simp [ho]))

theorem applyOp_other_key (rl : RateLimiter) (kA kB : String) (hne : kA ≠ kB)
    (op : LimiterOp) :
    (applyOp rl kA op).userLogs kB = rl.userLogs kB ∧
    (applyOp rl kA op).maxRequestsPerHour = rl.maxRequestsPerHour ∧
    (applyOp rl kA op).windowSizeSeconds = rl.windowSizeSeconds := by
  cases op with
  | allowStep now =>
    exact ⟨allow_userLogs_other rl kA kB now (Ne.symm hne), by simp [applyOp],
      by simp [applyOp]⟩
  | countStep now => exact ⟨rfl, rfl, rfl⟩
  | remainingStep now => exact ⟨rfl, rfl, rfl⟩
  | statsStep now => exact ⟨rfl, rfl, rfl⟩
  | resetStep =>
    exact ⟨setLog_userLogs_other rl kA kB none (Ne.symm hne), rfl, rfl⟩

theorem runOps_other_key (rl : RateLimiter) (kA kB : String) (hne : kA ≠ kB)
    (ops : List LimiterOp) :
    (runOps rl kA ops).userLogs kB = rl.userLogs kB ∧
    (runOps rl kA ops).maxRequestsPerHour = rl.maxRequestsPerHour ∧
    (runOps rl kA ops).windowSizeSeconds = rl.windowSizeSeconds := by
  induction ops generalizing rl with
  | nil => exact ⟨rfl, rfl, rfl⟩
  | cons op rest ih =>
    obtain ⟨h1, h2, h3⟩ := applyOp_other_key rl kA kB hne op
    obtain ⟨g1, g2, g3⟩ := ih (applyOp rl kA op)
    have e : runOps rl kA (op :: rest) = runOps (applyOp rl kA op) kA rest := rfl
    rw [e]
    exact ⟨g1.trans h1, g2.trans h2, g3.trans h3⟩

/-- All observations of one key depend only on that key's stored log and
the two constructor fields. -/
theorem obs_eq_of_state_eq (s rl : RateLimiter) (k : String) (now : ℤ)
    (h1 : s.userLogs k = rl.userLogs k)
    (h2 : s.maxRequestsPerHour = rl.maxRequestsPerHour)
    (h3 : s.windowSizeSeconds = rl.windowSizeSeconds) :
    s.getRequestCount k now = rl.getRequestCount k now ∧
    s.getRemainingRequests k now = rl.getRemainingRequests k now ∧
    s.getStats k now = rl.getStats k now ∧
    (s.allow k now).allowed = (rl.allow k now).allowed := by
  refine ⟨?_, ?_, ?_, ?_⟩
  · simp only [RateLimiter.getRequestCount, h1, h3]
  · simp only [RateLimiter.getRemainingRequests, h1, h2, h3]
  · simp only [RateLimiter.getStats, RateLimiter.getRequestCount,
      RateLimiter.getRemainingRequests, h1, h2, h3]
  · simp only [allow_allowed_eq, RateLimiter.allowObservedCount, h1, h2, h3]

/-! ### C6: monotone remaining -/

/-- C6: starting from a fresh key, after `N ≤ L` admitted calls within one
window, `getRemainingRequests` read while all `N` entries are still live
returns `max(0, L − N)`; moreover, on every state whatsoever the value of
`getRemainingRequests` is never negative and never exceeds the limit. -/
theorem monotone_remaining (L N : ℕ) (W now : ℤ) (rl : RateLimiter)
    (key : String) (times : List ℤ)
    (hL : rl.maxRequestsPerHour = L) (hW : rl.windowSizeSeconds = W)
    (hfresh : (rl.userLogs key).getD [] = [])
    (hN : times.length = N) (hNL : N ≤ L)
    (hburst : times.Pairwise (fun a b => a ≤ b ∧ b - a < W))
    (hlive : ∀ t ∈ times, now - W < t) :
    (runBurst rl key times).1 = List.replicate N true ∧
    (runBurst rl key times).2.getRemainingRequests key now =
      max 0 ((L : ℤ) - N) ∧
    (∀ (s : RateLimiter) (k : String) (t : ℤ),
      0 ≤ s.getRemainingRequests k t ∧
      s.getRemainingRequests k t ≤ (s.maxRequestsPerHour : ℤ)) := by
  obtain ⟨hres, hstate⟩ :=
    runBurst_spec times L W rl key [] hL hW hfresh (by simp) hburst
  simp only [List.length_nil, Nat.sub_zero, List.nil_append, Nat.zero_add]
    at hres hstate
  have htake : times.take L = times :=
    List.take_of_length_le (by omega)
  refine ⟨?_, ?_, ?_⟩
  · rw [hres, hN]
    have h1 : ∀ i ∈ List.range N, (decide (i < L)) = true := fun i hi =>
      decide_eq_true (by have := List.mem_range.mp hi; omega)
    calc (List.range N).map (fun i => decide (i < L))
        = (List.range N).map (fun _ => true) := List.map_congr_left h1
      _ = List.replicate N true := by
          rw [List.map_const']
          simp
  · have hlog : ((runBurst rl key times).2.userLogs key).getD [] = times := by
      rw [hstate, htake]
    have hfil : times.filter (fun t => now - W < t) = times :=
      List.filter_eq_self.mpr (fun t ht => decide_eq_true (hlive t ht))
    simp only [RateLimiter.getRemainingRequests, hlog,
      runBurst_windowSizeSeconds, runBurst_maxRequestsPerHour, hW, hL, hfil,
      hN]
  · intro s k t
    simp only [RateLimiter.getRemainingRequests]
    exact ⟨le_max_left 0 _, max_le (Int.natCast_nonneg _) (by omega)⟩

/-- Witness for `monotone_remaining`: limit 3, window 10, two admitted
calls at times 0 and 1, read at time 2. -/
theorem monotone_remaining_witness :
    (runBurst (RateLimiter.init 3 10) "user123" ([0, 1] : List ℤ)).1 =
        List.replicate 2 true ∧
    (runBurst (RateLimiter.init 3 10) "user123" ([0, 1] : List ℤ)).2.getRemainingRequests
        "user123" 2 = max 0 ((3 : ℤ) - 2) ∧
    (∀ (s : RateLimiter) (k : String) (t : ℤ),
      0 ≤ s.getRemainingRequests k t ∧
      s.getRemainingRequests k t ≤ (s.maxRequestsPerHour : ℤ)) :=
  monotone_remaining 3 2 10 2 (RateLimiter.init 3 10) "user123" [0, 1]
    rfl rfl (by decide) (by decide) (by decide) (by decide) (by decide)

/-! ### C7: idempotent reads -/

/-- C7: any sequence of read-only projections (`getRequestCount`,
`getRemainingRequests`, `getStats`), applied in any order to any key,
leaves the limiter state unchanged, so the outcome of the next `allow`
(its admit/reject boolean, the full result, and the resulting count) is
identical to what it would have been with no reads at all. -/
theorem idempotent_read (rl : RateLimiter) (keyR keyA : String) (now : ℤ)
    (ops : List LimiterOp) (hreads : ∀ op ∈ ops, op.isRead = true) :
    runOps rl keyR ops = rl ∧
    (runOps rl keyR ops).allow keyA now = rl.allow keyA now ∧
    ((runOps rl keyR ops).allow keyA now).allowed = (rl.allow keyA now).allowed ∧
    (runOps rl keyR ops).getRequestCount keyA now = rl.getRequestCount keyA now := by
  have h := runOps_reads_eq rl keyR ops hreads
  exact ⟨h, by rw [h], by rw [h], by rw [h]⟩

/-- Witness for `idempotent_read`: three reads on one key, probing the
subsequent `allow` of another key. -/
theorem idempotent_read_witness :
    runOps (RateLimiter.init 2 10) "user123"
        [LimiterOp.countStep 3, LimiterOp.remainingStep 4, LimiterOp.statsStep 5]
      = RateLimiter.init 2 10 ∧
    ((runOps (RateLimiter.init 2 10) "user123"
        [LimiterOp.countStep 3, LimiterOp.remainingStep 4, LimiterOp.statsStep 5]).allow
        "user2" 6) = (RateLimiter.init 2 10).allow "user2" 6 ∧
    (((runOps (RateLimiter.init 2 10) "user123"
        [LimiterOp.countStep 3, LimiterOp.remainingStep 4, LimiterOp.statsStep 5]).allow
        "user2" 6).allowed) = ((RateLimiter.init 2 10).allow "user2" 6).allowed ∧
    ((runOps (RateLimiter.init 2 10) "user123"
        [LimiterOp.countStep 3, LimiterOp.remainingStep 4, LimiterOp.statsStep 5]).getRequestCount
        "user2" 6) = (RateLimiter.init 2 10).getRequestCount "user2" 6 :=
  idempotent_read (RateLimiter.init 2 10) "user123" "user2" 6
    [LimiterOp.countStep 3, LimiterOp.remainingStep 4, LimiterOp.statsStep 5]
    (by decide)

/-! ### C9: key independence -/

/-- C9: any sequence of `allow`, `getRequestCount`, `getRemainingRequests`,
`getStats` or `resetUser` operations performed for key A leaves key B's
stored log unchanged, and therefore the count, remaining, stats and the
admit/reject outcome of any operation for key B are unaffected. -/
theorem key_independence (rl : RateLimiter) (keyA keyB : String)
    (hne : keyA ≠ keyB) (ops : List LimiterOp) (now : ℤ) :
    (runOps rl keyA ops).userLogs keyB = rl.userLogs keyB ∧
    (runOps rl keyA ops).getRequestCount keyB now = rl.getRequestCount keyB now ∧
    (runOps rl keyA ops).getRemainingRequests keyB now =
      rl.getRemainingRequests keyB now ∧
    (runOps rl keyA ops).getStats keyB now = rl.getStats keyB now ∧
    ((runOps rl keyA ops).allow keyB now).allowed = (rl.allow keyB now).allowed := by
  obtain ⟨h1, h2, h3⟩ := runOps_other_key rl keyA keyB hne ops
  obtain ⟨g1, g2, g3, g4⟩ := obs_eq_of_state_eq _ rl keyB now h1 h2 h3
  exact ⟨h1, g1, g2, g3, g4⟩

/-- Witness for `key_independence`: a mixed operation sequence for
"user123" (including `allow` and `resetUser`) observed from "user2", which
already holds one entry. -/
theorem key_independence_witness :
    (runOps (runBurst (RateLimiter.init 2 10) "user2" [0]).2 "user123"
        [LimiterOp.allowStep 1, LimiterOp.countStep 2, LimiterOp.remainingStep 3,
         LimiterOp.statsStep 4, LimiterOp.resetStep, LimiterOp.allowStep 5]).userLogs
        "user2" = ((runBurst (RateLimiter.init 2 10) "user2" [0]).2).userLogs "user2" ∧
    (runOps (runBurst (RateLimiter.init 2 10) "user2" [0]).2 "user123"
        [LimiterOp.allowStep 1, LimiterOp.countStep 2, LimiterOp.remainingStep 3,
         LimiterOp.statsStep 4, LimiterOp.resetStep, LimiterOp.allowStep 5]).getRequestCount
        "user2" 6 = ((runBurst (RateLimiter.init 2 10) "user2" [0]).2).getRequestCount "user2" 6 ∧
    (runOps (runBurst (RateLimiter.init 2 10) "user2" [0]).2 "user123"
        [LimiterOp.allowStep 1, LimiterOp.countStep 2, LimiterOp.remainingStep 3,
         LimiterOp.statsStep 4, LimiterOp.resetStep, LimiterOp.allowStep 5]).getRemainingRequests
        "user2" 6 = ((runBurst (RateLimiter.init 2 10) "user2" [0]).2).getRemainingRequests "user2" 6 ∧
    (runOps (runBurst (RateLimiter.init 2 10) "user2" [0]).2 "user123"
        [LimiterOp.allowStep 1, LimiterOp.countStep 2, LimiterOp.remainingStep 3,
         LimiterOp.statsStep 4, LimiterOp.resetStep, LimiterOp.allowStep 5]).getStats
        "user2" 6 = ((runBurst (RateLimiter.init 2 10) "user2" [0]).2).getStats "user2" 6 ∧
    ((runOps (runBurst (RateLimiter.init 2 10) "user2" [0]).2 "user123"
        [LimiterOp.allowStep 1, LimiterOp.countStep 2, LimiterOp.remainingStep 3,
         LimiterOp.statsStep 4, LimiterOp.resetStep, LimiterOp.allowStep 5]).allow
        "user2" 6).allowed = (((runBurst (RateLimiter.init 2 10) "user2" [0]).2).allow "user2" 6).allowed :=
  key_independence (runBurst (RateLimiter.init 2 10) "user2" [0]).2
    "user123" "user2" (by decide)
    [LimiterOp.allowStep 1, LimiterOp.countStep 2, LimiterOp.remainingStep 3,
     LimiterOp.statsStep 4, LimiterOp.resetStep, LimiterOp.allowStep 5] 6

/-! ### C10: bounded log length on reachable states -/

/-- Invariant carried by every reachable state: the limit field is the
construction-time limit, and every key's stored log has at most that many
entries (the prune step only shortens a log, and `allow` appends only when
strictly below the limit). -/
theorem reachable_invariant (L : ℕ) (W : ℤ) (rl : RateLimiter)
    (h : Reachable L W rl) :
    rl.maxRequestsPerHour = L ∧
    ∀ k, ((rl.userLogs k).getD []).length ≤ L := by
  induction h with
  | base => exact ⟨rfl, fun k => by simp [RateLimiter.init]⟩
  | step rl' k op hr ih =>
    obtain ⟨ihL, ihlen⟩ := ih
    refine ⟨by cases op <;> simp [applyOp, RateLimiter.resetUser, ihL], ?_⟩
    intro k'
    cases op with
    | allowStep now =>
      by_cases hk : k' = k
      · subst hk
        have e : (applyOp rl' k' (LimiterOp.allowStep now)).userLogs k' =
            (rl'.allow k' now).limiter.userLogs k' := rfl
        rw [e, allow_userLogs_self]
        have hp : (pruneFront (now - rl'.windowSizeSeconds)
            ((rl'.userLogs k').getD [])).length ≤ L :=
          le_trans (pruneFront_length_le _ _) (ihlen k')
        by_cases hc : rl'.allowObservedCount k' now < rl'.maxRequestsPerHour
        · rw [if_pos hc]
          rw [RateLimiter.allowObservedCount, ihL] at hc
          simp only [Option.getD_some, List.length_append, List.length_cons,
            List.length_nil]
          omega
        · rw [if_neg hc]
          simpa using hp
      · have e : (applyOp rl' k (LimiterOp.allowStep now)).userLogs k' =
            rl'.userLogs k' := allow_userLogs_other rl' k k' now hk
        rw [e]
        exact ihlen k'
    | countStep now => exact ihlen k'
    | remainingStep now => exact ihlen k'
    | statsStep now => exact ihlen k'
    | resetStep =>
      by_cases hk : k' = k
      · subst hk
        have e : (applyOp rl' k' LimiterOp.resetStep).userLogs k' = none :=
          setLog_userLogs_self rl' k' none
        rw [e]
        simp
      · have e : (applyOp rl' k LimiterOp.resetStep).userLogs k' =
            rl'.userLogs k' := setLog_userLogs_other rl' k k' none hk
        rw [e]
        exact ihlen k'
  | clearAll rl' hr ih =>
    exact ⟨by simpa [RateLimiter.resetAll] using ih.1,
      fun k => by simp [RateLimiter.resetAll]⟩

/-- C10: on every state reachable from a freshly constructed limiter with
limit `L` by any sequence of `allow`, read, `resetUser` and `resetAll`
calls, every key's stored log has length at most `L`; in particular
`getRequestCount` never returns a value above `L`. -/
theorem reachable_log_bounded (L : ℕ) (W : ℤ) (rl : RateLimiter)
    (h : Reachable L W rl) (k : String) (now : ℤ) :
    ((rl.userLogs k).getD []).length ≤ L ∧
    rl.getRequestCount k now ≤ L := by
  obtain ⟨-, hlen⟩ := reachable_invariant L W rl h
  refine ⟨hlen k, ?_⟩
  calc rl.getRequestCount k now
      ≤ ((rl.userLogs k).getD []).length :=
        List.length_filter_le _ ((rl.userLogs k).getD [])
    _ ≤ L := hlen k

/-- Witness for `reachable_log_bounded`: the state reached from a fresh
limiter (limit 2, window 10) by three `allow` calls for "u". -/
theorem reachable_log_bounded_witness :
    (((applyOp (applyOp (applyOp (RateLimiter.init 2 10) "u"
          (LimiterOp.allowStep 0)) "u" (LimiterOp.allowStep 1)) "u"
          (LimiterOp.allowStep 2)).userLogs "u").getD []).length ≤ 2 ∧
    (applyOp (applyOp (applyOp (RateLimiter.init 2 10) "u"
          (LimiterOp.allowStep 0)) "u" (LimiterOp.allowStep 1)) "u"
          (LimiterOp.allowStep 2)).getRequestCount "u" 2 ≤ 2 :=
  reachable_log_bounded 2 10 _
    (Reachable.step _ "u" (LimiterOp.allowStep 2)
      (Reachable.step _ "u" (LimiterOp.allowStep 1)
        (Reachable.step _ "u" (LimiterOp.allowStep 0) Reachable.base)))
    "u" 2
